import Mathlib

set_option maxRecDepth 400000

/-!
Verification of the archive central-directory scanner (singlejar InputJar).

The repository ships the scanner's behaviour tests
(`src/tools/singlejar/input_jar_scan_entries_test.h`); the scanner itself
(`input_jar.h` / `zip_headers.h`) is not part of the source tree given here,
so every definition below is modelled from the specification document
(purpose, data model, component design, error handling), faithful to its
wording: byte-exact little-endian record layouts, EOCD discovery, ZIP64
overrides, central-directory iteration, local-header resolution and the
InputJar facade state machine.
-/

/-- Modelled from the spec: a ByteSource is a random-access, bounds-known view
over archive bytes, providing `readAt(offset, length)` and `size()`
(spec section 2).  `data` gives the byte at an offset; only offsets below
`size` are meaningful. -/
structure ByteSource where
  data : Nat → Nat
  size : Nat

/-- A ByteSource backed by an in-memory list of bytes. -/
def ofList (l : List Nat) : ByteSource :=
  ⟨fun i => l.getD i 0, l.length⟩

/-- Modelled from the spec: little-endian read of `n` bytes starting at `off`
(spec section 4.1: fixed-width fields use the format's little-endian packed
layout).  Each byte is taken modulo 256. -/
def readLE (b : ByteSource) (off : Nat) : Nat → Nat
  | 0 => 0
  | n + 1 => b.data off % 256 + 256 * readLE b (off + 1) n

/-- Modelled from the spec: read `n` raw bytes starting at `off` (used for
variable-length file names and extra fields, spec section 4.1). -/
def readBytes (b : ByteSource) (off n : Nat) : List Nat :=
  (List.range n).map (fun i => b.data (off + i) % 256)

/-- Modelled from the spec: the error kinds of section 7 of the spec
(a single decode failure kind reported to the caller). -/
inductive FormatError where
  | NotAnArchive
  | TruncatedRecord
  | BadSignature
  | MissingZip64Extension
  | DirectoryCountMismatch
  | LocalHeaderMismatch
deriving DecidableEq, Repr

/-- Modelled from the spec: a decoded central-directory header (spec
section 3), with sizes, local-header offset and disk number already
ZIP64-corrected. -/
structure CDH where
  signature : Nat
  flags : Nat
  compressed_file_size : Nat
  uncompressed_file_size : Nat
  local_header_offset : Nat
  disk_number : Nat
  file_name : List Nat
deriving DecidableEq, Repr

/-- The magic-tag check of the central-directory header (`cdh->is()`). -/
def CDH.is (c : CDH) : Bool := c.signature == 33639248

/-- The file-name length accessor (`cdh->file_name_length()`). -/
def CDH.file_name_length (c : CDH) : Nat := c.file_name.length

/-- Modelled from the spec: the data-descriptor flag is derived from the
CDH's general-purpose bit flags (bit 3), not from the LH itself
(spec section 3). -/
def CDH.no_size_in_local_header (c : CDH) : Bool := c.flags / 8 % 2 == 1

/-- Modelled from the spec: a decoded local header (spec section 3), which
mirrors a subset of the CDH fields as stored at the entry's data location. -/
structure LH where
  signature : Nat
  flags : Nat
  compressed_file_size : Nat
  uncompressed_file_size : Nat
  file_name : List Nat
deriving DecidableEq, Repr

/-- The magic-tag check of the local header (`lh->is()`). -/
def LH.is (l : LH) : Bool := l.signature == 67324752

/-- The file-name length accessor (`lh->file_name_length()`). -/
def LH.file_name_length (l : LH) : Nat := l.file_name.length

/-- The last byte of a file name (`file_name()[file_name_length() - 1]`);
47 is the byte of the `/` character, marking a directory entry. -/
def lastByte (l : List Nat) : Nat := l.getD (l.length - 1) 0

/-- Walk the extra-field sub-records looking for the ZIP64 identifier; the
fuel bounds the number of sub-records (each consumes at least 4 bytes). -/
def findZip64Aux : Nat → List Nat → Option (List Nat)
  | 0, _ => none
  | fuel + 1, extra =>
    match extra with
    | t0 :: t1 :: s0 :: s1 :: rest =>
      if t0 + 256 * t1 = 1 then some (rest.take (s0 + 256 * s1))
      else findZip64Aux fuel (rest.drop (s0 + 256 * s1))
    | _ => none

/-- Modelled from the spec: locate the ZIP64 sub-record (identifier 0x0001)
inside a CDH's extra-field block: a sequence of sub-records, each a 2-byte
tag, a 2-byte size and that many data bytes (spec section 4.2). -/
def findZip64 (extra : List Nat) : Option (List Nat) :=
  findZip64Aux extra.length extra

/-- Little-endian value of the 8 bytes of a ZIP64 sub-record starting at
position `pos`. -/
def subVal (sub : List Nat) (pos : Nat) : Nat :=
  readLE (ofList sub) pos 8

/-- Modelled from the spec: consume one field of the ZIP64 sub-record: if the
nominal 32-bit value is the sentinel 0xFFFFFFFF, take the next 8 bytes at
`pos` as the true value and advance; otherwise keep the nominal value and
consume no bytes (spec section 4.2). -/
def pick (nominal : Nat) (sub : List Nat) (pos : Nat) : Nat × Nat :=
  if nominal = 4294967295 then (subVal sub pos, pos + 8) else (nominal, pos)

/-- Modelled from the spec: the ZIP64 extra-field override algorithm (spec
section 4.2).  The four nominal values are consulted in the fixed order
uncompressed size, compressed size, local-header offset, disk number; a
sentinel with no ZIP64 sub-record is a `MissingZip64Extension` error. -/
def zip64Override (u c o d : Nat) (extra : List Nat) :
    Except FormatError (Nat × Nat × Nat × Nat) :=
  if u ≠ 4294967295 ∧ c ≠ 4294967295 ∧ o ≠ 4294967295 ∧ d ≠ 4294967295 then
    .ok (u, c, o, d)
  else
    match findZip64 extra with
    | none => .error .MissingZip64Extension
    | some sub =>
      match pick u sub 0 with
      | (u', p1) =>
        match pick c sub p1 with
        | (c', p2) =>
          match pick o sub p2 with
          | (o', p3) =>
            match pick d sub p3 with
            | (d', p4) =>
              if p4 ≤ sub.length then .ok (u', c', o', d')
              else .error .TruncatedRecord

/-- Modelled from the spec: decode a central-directory header at `off`
(46-byte fixed portion, then file name, extra field and comment; spec
sections 4.1 and 6), applying the ZIP64 override.  Returns the decoded
header and its total encoded length. -/
def decodeCDH (b : ByteSource) (off : Nat) :
    Except FormatError (CDH × Nat) :=
  if off + 46 > b.size then .error .TruncatedRecord
  else if readLE b off 4 ≠ 33639248 then .error .BadSignature
  else if off + 46 + readLE b (off + 28) 2 + readLE b (off + 30) 2 +
      readLE b (off + 32) 2 > b.size then .error .TruncatedRecord
  else
    match zip64Override (readLE b (off + 24) 4) (readLE b (off + 20) 4)
        (readLE b (off + 42) 4) (readLE b (off + 34) 2)
        (readBytes b (off + 46 + readLE b (off + 28) 2)
          (readLE b (off + 30) 2)) with
    | .error e => .error e
    | .ok (usize, csize, lhOff, disk) =>
      .ok (⟨readLE b off 4, readLE b (off + 8) 2, csize, usize, lhOff, disk,
            readBytes b (off + 46) (readLE b (off + 28) 2)⟩,
           46 + readLE b (off + 28) 2 + readLE b (off + 30) 2 +
             readLE b (off + 32) 2)

/-- Modelled from the spec: decode a local header at `off` (30-byte fixed
portion then file name; spec sections 4.1 and 6). -/
def decodeLH (b : ByteSource) (off : Nat) : Except FormatError LH :=
  if off + 30 > b.size then .error .TruncatedRecord
  else if readLE b off 4 ≠ 67324752 then .error .BadSignature
  else if off + 30 + readLE b (off + 26) 2 + readLE b (off + 28) 2 > b.size
    then .error .TruncatedRecord
  else
    .ok ⟨readLE b off 4, readLE b (off + 6) 2, readLE b (off + 18) 4,
         readLE b (off + 22) 4, readBytes b (off + 30) (readLE b (off + 26) 2)⟩

/-- Modelled from the spec: the LocalHeaderResolver (spec section 4.5) and
the `LocalHeaderMismatch` check (spec section 7): decode the LH at the
CDH's (ZIP64-corrected) offset; names must be byte-identical; sizes must
agree unless the CDH signals a trailing data descriptor. -/
def resolveEntry (b : ByteSource) (cdh : CDH) :
    Except FormatError (CDH × LH) :=
  match decodeLH b cdh.local_header_offset with
  | .error e => .error e
  | .ok lh =>
    if lh.file_name = cdh.file_name then
      if cdh.no_size_in_local_header then .ok (cdh, lh)
      else if lh.compressed_file_size = cdh.compressed_file_size ∧
          lh.uncompressed_file_size = cdh.uncompressed_file_size then
        .ok (cdh, lh)
      else .error .LocalHeaderMismatch
    else .error .LocalHeaderMismatch

/-- One step of the central-directory scan: decode the CDH at `off`, resolve
its local header, and return the yielded pair with the next cursor offset. -/
def scanStep (b : ByteSource) (off : Nat) :
    Except FormatError ((CDH × LH) × Nat) :=
  match decodeCDH b off with
  | .error e => .error e
  | .ok (cdh, len) =>
    match resolveEntry b cdh with
    | .error e => .error e
    | .ok pair => .ok (pair, off + len)

/-- Modelled from the spec: the CentralDirectoryScanner's sequential pass
(spec section 4.4): read exactly `n` entries starting at `off`, advancing
by each entry's total encoded length; returns the entries and the final
cursor offset. -/
def scanFrom (b : ByteSource) : Nat → Nat → Except FormatError (List (CDH × LH) × Nat)
  | 0, off => .ok ([], off)
  | n + 1, off =>
    match scanStep b off with
    | .error e => .error e
    | .ok (pair, off') =>
      match scanFrom b n off' with
      | .error e => .error e
      | .ok (l, e) => .ok (pair :: l, e)

/-- Modelled from the spec: backward scan for the classic EOCD signature,
bounded by the maximum comment length (spec section 4.3). -/
def findEOCDFrom (b : ByteSource) : Nat → Nat → Except FormatError Nat
  | pos, fuel =>
    if readLE b pos 4 = 101010256 then .ok pos
    else
      match fuel, pos with
      | 0, _ => .error .NotAnArchive
      | _, 0 => .error .NotAnArchive
      | f + 1, p + 1 => findEOCDFrom b p f

/-- Modelled from the spec: EOCD discovery: scan backward from
`archive_size - 22` for the EOCD signature, bounded by the maximum comment
length of 65535 bytes (spec section 4.3). -/
def findEOCD (b : ByteSource) : Except FormatError Nat :=
  if b.size < 22 then .error .NotAnArchive
  else findEOCDFrom b (b.size - 22) 65535

/-- The resolved central directory: entry count, start offset and size, and
whether they came from the ZIP64 end record. -/
structure CDInfo where
  count : Nat
  cdOffset : Nat
  cdSize : Nat
  zip64 : Bool
deriving DecidableEq, Repr

/-- Modelled from the spec: full EOCD/ZIP64 discovery (spec section 4.3):
find the classic EOCD; if a Zip64EOCDLocator immediately precedes it,
follow its pointer to the Zip64EOCDRecord (validating signature and size)
and prefer the 64-bit entry count and central-directory offset/size. -/
def discover (b : ByteSource) : Except FormatError CDInfo :=
  match findEOCD b with
  | .error e => .error e
  | .ok e =>
    if 20 ≤ e ∧ readLE b (e - 20) 4 = 117853008 then
      if readLE b (e - 12) 8 + 56 > b.size then .error .TruncatedRecord
      else if readLE b (readLE b (e - 12) 8) 4 ≠ 101075792 then
        .error .BadSignature
      else
        .ok ⟨readLE b (readLE b (e - 12) 8 + 32) 8,
             readLE b (readLE b (e - 12) 8 + 48) 8,
             readLE b (readLE b (e - 12) 8 + 40) 8, true⟩
    else
      .ok ⟨readLE b (e + 10) 2, readLE b (e + 16) 4, readLE b (e + 12) 4,
           false⟩

/-- The archive's declared entry count as the spec words it: the classic
EOCD 16-bit count or, when the ZIP64 end record is present, its 64-bit
count (independent of the scanner's validity checks). -/
def declaredEntryCount (b : ByteSource) : Option Nat :=
  match findEOCD b with
  | .error _ => none
  | .ok e =>
    if 20 ≤ e ∧ readLE b (e - 20) 4 = 117853008 then
      some (readLE b (readLE b (e - 12) 8 + 32) 8)
    else some (readLE b (e + 10) 2)

/-- The 64-bit entry count reached through the ZIP64 locator chain. -/
def zip64EntryCount (b : ByteSource) : Option Nat :=
  match findEOCD b with
  | .error _ => none
  | .ok e => some (readLE b (readLE b (e - 12) 8 + 32) 8)

/-- One-shot scanner: discovery followed by a full central-directory pass. -/
def openScan (b : ByteSource) : Except FormatError (List (CDH × LH) × Nat) :=
  match discover b with
  | .error e => .error e
  | .ok info => scanFrom b info.count info.cdOffset

/-- Extract the error of a failed decode, if any. -/
def errOf {α : Type} : Except FormatError α → Option FormatError
  | .error e => some e
  | .ok _ => none

/-- Modelled from the spec: the InputJar facade / cursor state machine (spec
section 4.6): Closed (initial), Open (holding the resolved central
directory and the cursor), and a terminal unusable state entered when
`NextEntry` fails (spec section 7). -/
inductive InputJar where
  | closed
  | opened (cdOff count cursor remaining : Nat)
  | failed
deriving DecidableEq, Repr

/-- Modelled from the spec: end-of-sequence is an explicit signal, not an
error and not a nullable reference (spec sections 4.6 and 9). -/
inductive NextResult where
  | entry (p : CDH × LH)
  | atEnd
  | fail (e : FormatError)
deriving DecidableEq, Repr

/-- Modelled from the spec: `Open` runs EOCD discovery once; on any
FormatError it leaves the facade unchanged (Closed) and reports failure;
on success the cursor is placed at the central-directory start (spec
section 4.6). -/
def InputJar.Open (j : InputJar) (b : ByteSource) : InputJar × Bool :=
  match j with
  | .closed =>
    match discover b with
    | .error _ => (j, false)
    | .ok info =>
      (.opened info.cdOffset info.count info.cdOffset info.count, true)
  | _ => (j, false)

/-- Modelled from the spec: `Close` is idempotent and returns the facade to
Closed (spec section 4.6). -/
def InputJar.Close (_ : InputJar) : InputJar := .closed

/-- Modelled from the spec: `NextEntry` advances the cursor by one entry and
returns the (CDH, LH) pair; it signals end-of-sequence once the declared
entry count is exhausted; on a decode failure the facade becomes unusable
for further iteration (spec sections 4.6 and 7). -/
def InputJar.NextEntry (j : InputJar) (b : ByteSource) :
    InputJar × NextResult :=
  match j with
  | .opened cdOff count cursor (r + 1) =>
    match scanStep b cursor with
    | .error e => (.failed, .fail e)
    | .ok (pair, off') => (.opened cdOff count off' r, .entry pair)
  | j => (j, .atEnd)

/-- Drive `NextEntry` up to `n` times, collecting the yielded pairs and the
final facade state; iteration stops at the first non-entry result. -/
def runSteps (b : ByteSource) : Nat → InputJar → List (CDH × LH) × InputJar
  | 0, j => ([], j)
  | n + 1, j =>
    match InputJar.NextEntry j b with
    | (j', .entry p) =>
      let r := runSteps b n j'
      (p :: r.1, r.2)
    | (j', _) => ([], j')

/-- A facade state that has yielded its whole declared entry sequence and
reported end-of-sequence: opened with no remaining entries. -/
def isComplete : InputJar → Bool
  | .opened _ _ _ 0 => true
  | _ => false

/-- Four little-endian bytes of a 32-bit value. -/
def le4 (v : Nat) : List Nat :=
  [v % 256, v / 256 % 256, v / 65536 % 256, v / 16777216 % 256]

/-- Eight little-endian bytes of a 64-bit value. -/
def le8 (v : Nat) : List Nat :=
  [v % 256, v / 256 % 256, v / 65536 % 256, v / 16777216 % 256,
   v / 4294967296 % 256, v / 1099511627776 % 256,
   v / 281474976710656 % 256, v / 72057594037927936 % 256]

/-- Modelled from the spec: the encoded form of a local header (signature
`50 4B 03 04`, 30-byte fixed portion, then file name and extra field;
spec section 6). -/
def encodeLH (flags csize usize : Nat) (name extra : List Nat) : List Nat :=
  [80, 75, 3, 4,
   20, 0,
   flags % 256, flags / 256 % 256,
   0, 0,
   0, 0, 0, 0,
   0, 0, 0, 0,
   csize % 256, csize / 256 % 256, csize / 65536 % 256, csize / 16777216 % 256,
   usize % 256, usize / 256 % 256, usize / 65536 % 256, usize / 16777216 % 256,
   name.length % 256, name.length / 256 % 256,
   extra.length % 256, extra.length / 256 % 256] ++ name ++ extra

/-- Modelled from the spec: the encoded form of a central-directory header
(signature `50 4B 01 02`, 46-byte fixed portion, then file name and extra
field, no comment; spec section 6). -/
def encodeCDH (flags csize usize lhOff disk : Nat) (name extra : List Nat) :
    List Nat :=
  [80, 75, 1, 2,
   20, 0,
   20, 0,
   flags % 256, flags / 256 % 256,
   0, 0,
   0, 0, 0, 0,
   0, 0, 0, 0,
   csize % 256, csize / 256 % 256, csize / 65536 % 256, csize / 16777216 % 256,
   usize % 256, usize / 256 % 256, usize / 65536 % 256, usize / 16777216 % 256,
   name.length % 256, name.length / 256 % 256,
   extra.length % 256, extra.length / 256 % 256,
   0, 0,
   disk % 256, disk / 256 % 256,
   0, 0,
   0, 0, 0, 0,
   lhOff % 256, lhOff / 256 % 256, lhOff / 65536 % 256, lhOff / 16777216 % 256]
  ++ name ++ extra

/-- Modelled from the spec: the encoded classic end-of-central-directory
record (signature `50 4B 05 06`, 22 bytes, empty comment; spec section 6). -/
def encodeEOCD (count cdSize cdOff : Nat) : List Nat :=
  [80, 75, 5, 6,
   0, 0,
   0, 0,
   count % 256, count / 256 % 256,
   count % 256, count / 256 % 256] ++ le4 cdSize ++ le4 cdOff ++ [0, 0]

/-- Modelled from the spec: the encoded ZIP64 end-of-central-directory
locator (signature `50 4B 06 07`, 20 bytes; spec section 6). -/
def encodeZip64Loc (recOff : Nat) : List Nat :=
  [80, 75, 6, 7, 0, 0, 0, 0] ++ le8 recOff ++ [1, 0, 0, 0]

/-- Modelled from the spec: the encoded ZIP64 end-of-central-directory record
(signature `50 4B 06 06`, 56 bytes; spec section 6). -/
def encodeZip64Rec (count cdSize cdOff : Nat) : List Nat :=
  [80, 75, 6, 6,
   44, 0, 0, 0, 0, 0, 0, 0,
   45, 0,
   45, 0,
   0, 0, 0, 0,
   0, 0, 0, 0] ++ le8 count ++ le8 count ++ le8 cdSize ++ le8 cdOff

/-- The basic two-resource archive of the spec's concrete scenario
(section 8): entries `res1` (123 bytes) and `res2` (456 bytes) plus a
directory entry `sub/`, classic EOCD, no entry data stored between the
headers (the scanner reads headers and metadata only). -/
def basicList : List Nat :=
  encodeLH 0 123 123 [114, 101, 115, 49] [] ++
  encodeLH 0 456 456 [114, 101, 115, 50] [] ++
  encodeLH 0 0 0 [115, 117, 98, 47] [] ++
  encodeCDH 0 123 123 0 0 [114, 101, 115, 49] [] ++
  encodeCDH 0 456 456 34 0 [114, 101, 115, 50] [] ++
  encodeCDH 0 0 0 68 0 [115, 117, 98, 47] [] ++
  encodeEOCD 3 150 102

/-- The basic archive as a ByteSource. -/
def basicB : ByteSource := ofList basicList

/-- An empty byte source: not an archive at all. -/
def emptyB : ByteSource := ofList []

/-- An archive whose EOCD declares one entry with the central directory at
offset 0, where no central-directory header exists: `Open` succeeds but the
first `NextEntry` fails. -/
def corruptB : ByteSource := ofList (encodeEOCD 1 46 0)

/-- An archive with a single entry whose file name is empty: every record is
signature-valid, names match, sizes match, and the declared count is met,
yet the yielded file-name length is zero. -/
def emptyNameB : ByteSource :=
  ofList (encodeLH 0 0 0 [] [] ++ encodeCDH 0 0 0 0 0 [] [] ++
    encodeEOCD 1 46 30)

/-- An archive with a single directory entry (name `d/`) whose CDH and LH
uncompressed sizes disagree (6 versus 5) while the data-descriptor flag is
clear: the scanner reports `LocalHeaderMismatch`, the directory name
notwithstanding. -/
def dirMismatchB : ByteSource :=
  ofList (encodeLH 0 5 5 [100, 47] [] ++
    encodeCDH 0 5 6 0 0 [100, 47] [] ++ encodeEOCD 1 48 32)

/-- The ZIP64 extra field of the huge entry: one sub-record, identifier 1,
16 data bytes carrying the 64-bit uncompressed and compressed sizes
0x100000001 (4 GiB + 1). -/
def hugeExtra : List Nat := [1, 0, 16, 0] ++ le8 4294967297 ++ le8 4294967297

/-- The ZIP64 extra field of the `res1` entry of the huge archive: one
sub-record carrying only the 64-bit local-header offset 0x100000002. -/
def hugeRes1Extra : List Nat := [1, 0, 8, 0] ++ le8 4294967298

/-- Byte map of the huge archive: a `huge` entry (data descriptor in use,
4 GiB + 1 of entry data) whose local header sits at offset 0, a `res1`
entry whose local header sits at offset 0x100000002 (beyond 4 GiB), the
central directory at 0x100000024 with sentinel-bearing CDHs, and the
ZIP64 record/locator chain before a sentinel-bearing classic EOCD. -/
def hugeData (off : Nat) : Nat :=
  if off < 34 then (encodeLH 8 0 0 [104, 117, 103, 101] []).getD off 0
  else if off < 4294967298 then 0
  else if off < 4294967332 then
    (encodeLH 0 123 123 [114, 101, 115, 49] []).getD (off - 4294967298) 0
  else if off < 4294967402 then
    (encodeCDH 8 4294967295 4294967295 0 0 [104, 117, 103, 101]
      hugeExtra).getD (off - 4294967332) 0
  else if off < 4294967464 then
    (encodeCDH 0 123 123 4294967295 0 [114, 101, 115, 49]
      hugeRes1Extra).getD (off - 4294967402) 0
  else
    (encodeZip64Rec 2 132 4294967332 ++ encodeZip64Loc 4294967464 ++
      encodeEOCD 65535 4294967295 4294967295).getD (off - 4294967464) 0

/-- The huge archive as a ByteSource (total size just beyond 4 GiB). -/
def hugeB : ByteSource := ⟨hugeData, 4294967562⟩

/-- The extra field of the sentinel-sized entry: ZIP64 sub-record whose true
64-bit sizes are exactly 0xFFFFFFFF, the sentinel value itself. -/
def xffExtra : List Nat :=
  [1, 0, 16, 0, 255, 255, 255, 255, 0, 0, 0, 0, 255, 255, 255, 255, 0, 0, 0, 0]

/-- An archive with one entry (name byte `x`) whose true compressed and
uncompressed sizes are exactly 0xFFFFFFFF: the CDH stores the sentinel and
the ZIP64 extra field stores 0xFFFFFFFF as the true 64-bit value, while the
LH stores 0xFFFFFFFF directly (it fits in 32 bits). -/
def xffList : List Nat :=
  encodeLH 0 4294967295 4294967295 [120] [] ++
  encodeCDH 0 4294967295 4294967295 0 0 [120] xffExtra ++
  encodeEOCD 1 67 31

/-- The sentinel-sized archive as a ByteSource. -/
def xffB : ByteSource := ofList xffList

/-- Local header of directory entry `i` of the lots-of-entries archive:
name `[100, i, 47]` (ending in the `/` byte), empty content. -/
def dirLHbytes (i : Nat) : List Nat := encodeLH 0 0 0 [100, i, 47] []

/-- Local header of file entry `j` of the lots-of-entries archive:
name `[102, j / 256, j % 256, 0]`, empty content. -/
def fileLHbytes (j : Nat) : List Nat :=
  encodeLH 0 0 0 [102, j / 256, j % 256, 0] []

/-- Central-directory header of directory entry `i` of the lots-of-entries
archive; its local header sits at offset `33 * i`. -/
def dirCDHbytes (i : Nat) : List Nat :=
  encodeCDH 0 0 0 (33 * i) 0 [100, i, 47] []

/-- Central-directory header of file entry `j` of the lots-of-entries
archive; its local header sits at offset `8448 + 34 * j`. -/
def fileCDHbytes (j : Nat) : List Nat :=
  encodeCDH 0 0 0 (8448 + 34 * j) 0 [102, j / 256, j % 256, 0] []

/-- Trailer of the lots-of-entries archive: ZIP64 end record declaring the
64-bit entry count 65792, then the ZIP64 locator, then a classic EOCD
whose 16-bit count holds the sentinel 0xFFFF. -/
def bigTail : List Nat :=
  encodeZip64Rec 65792 3289344 2236672 ++ encodeZip64Loc 5526016 ++
    encodeEOCD 65535 4294967295 4294967295

/-- Byte map of the lots-of-entries archive: 256 directory local headers
(stride 33) from offset 0, 65536 file local headers (stride 34) from
offset 8448, the central directory from offset 2236672 (256 directory CDHs
of 49 bytes, then 65536 file CDHs of 50 bytes), and the trailer from
offset 5526016. -/
def bigData (off : Nat) : Nat :=
  if off < 8448 then (dirLHbytes (off / 33)).getD (off % 33) 0
  else if off < 2236672 then
    (fileLHbytes ((off - 8448) / 34)).getD ((off - 8448) % 34) 0
  else if off < 2249216 then
    (dirCDHbytes ((off - 2236672) / 49)).getD ((off - 2236672) % 49) 0
  else if off < 5526016 then
    (fileCDHbytes ((off - 2249216) / 50)).getD ((off - 2249216) % 50) 0
  else bigTail.getD (off - 5526016) 0

/-- The lots-of-entries archive (65792 entries: 256 directories and
65536 files) as a ByteSource. -/
def bigB : ByteSource := ⟨bigData, 5526114⟩

/-- The consecutive naturals `i, i+1, ..., i+n-1`. -/
def natsFrom : Nat → Nat → List Nat
  | _, 0 => []
  | i, n + 1 => i :: natsFrom (i + 1) n

/-- The (CDH, LH) pair the scanner yields for directory entry `i` of the
lots-of-entries archive. -/
def dirPair (i : Nat) : CDH × LH :=
  (⟨33639248, 0, 0, 0, 33 * i, 0, [100, i, 47]⟩,
   ⟨67324752, 0, 0, 0, [100, i, 47]⟩)

/-- The (CDH, LH) pair the scanner yields for file entry `j` of the
lots-of-entries archive. -/
def filePair (j : Nat) : CDH × LH :=
  (⟨33639248, 0, 0, 0, 8448 + 34 * j, 0, [102, j / 256, j % 256, 0]⟩,
   ⟨67324752, 0, 0, 0, [102, j / 256, j % 256, 0]⟩)

/-- The full entry sequence of the lots-of-entries archive: the 256
directory entries followed by the 65536 file entries. -/
def bigList : List (CDH × LH) :=
  (natsFrom 0 256).map dirPair ++ (natsFrom 0 65536).map filePair

theorem readLE2 (b : ByteSource) (off : Nat) :
    readLE b off 2 = b.data off % 256 + 256 * (b.data (off + 1) % 256) := by
  simp [readLE, Nat.mul_add]

theorem readLE4 (b : ByteSource) (off : Nat) :
    readLE b off 4 = b.data off % 256 + 256 * (b.data (off + 1) % 256) +
      65536 * (b.data (off + 2) % 256) +
      16777216 * (b.data (off + 3) % 256) := by
  simp [readLE, Nat.mul_add, Nat.mul_comm, Nat.mul_left_comm]
  ring

theorem readLE_lt (b : ByteSource) (off n : Nat) : readLE b off n < 256 ^ n := by
  induction n generalizing off with
  | zero => simp [readLE]
  | succ n ih =>
    have h1 : b.data off % 256 < 256 := Nat.mod_lt _ (by omega)
    have h2 := ih (off + 1)
    calc readLE b off (n + 1) = b.data off % 256 + 256 * readLE b (off + 1) n := rfl
    _ < 256 ^ (n + 1) := by
        have : 256 * readLE b (off + 1) n ≤ 256 * (256 ^ n - 1) :=
          Nat.mul_le_mul_left _ (by omega)
        have hp : 1 ≤ 256 ^ n := Nat.one_le_pow _ _ (by omega)
        have : 256 ^ (n + 1) = 256 * 256 ^ n := by ring
        omega

theorem readBytes_exact (b : ByteSource) (base : Nat) (name : List Nat)
    (h : ∀ j, j < name.length → b.data (base + j) = name.getD j 0)
    (hbytes : ∀ x ∈ name, x < 256) :
    readBytes b base name.length = name := by
  apply List.ext_get
  · simp [readBytes]
  · intro i h1 h2
    simp only [readBytes, List.get_eq_getElem, List.getElem_map,
      List.getElem_range]
    have hi : i < name.length := by simpa [readBytes] using h2
    rw [h i hi]
    have : name.getD i 0 = name.get ⟨i, hi⟩ := by
      simp [List.getD_eq_getElem?_getD, List.getElem?_eq_getElem hi]
    rw [this]
    exact Nat.mod_eq_of_lt (hbytes _ (List.get_mem _ _ _))

theorem readLE2_region (b : ByteSource) (base k L : Nat) (enc : List Nat)
    (hb : ∀ j, j < L → b.data (base + j) = enc.getD j 0)
    (hk : k + 2 ≤ L) :
    readLE b (base + k) 2 =
      enc.getD k 0 % 256 + 256 * (enc.getD (k + 1) 0 % 256) := by
  rw [readLE2, show base + k + 1 = base + (k + 1) by omega,
    hb k (by omega), hb (k + 1) (by omega)]

theorem readLE4_region (b : ByteSource) (base k L : Nat) (enc : List Nat)
    (hb : ∀ j, j < L → b.data (base + j) = enc.getD j 0)
    (hk : k + 4 ≤ L) :
    readLE b (base + k) 4 =
      enc.getD k 0 % 256 + 256 * (enc.getD (k + 1) 0 % 256) +
      65536 * (enc.getD (k + 2) 0 % 256) +
      16777216 * (enc.getD (k + 3) 0 % 256) := by
  rw [readLE4, show base + k + 1 = base + (k + 1) by omega,
    show base + k + 2 = base + (k + 2) by omega,
    show base + k + 3 = base + (k + 3) by omega,
    hb k (by omega), hb (k + 1) (by omega), hb (k + 2) (by omega),
    hb (k + 3) (by omega)]

theorem decodeLH_of_region (b : ByteSource) (base flags csize usize : Nat)
    (name : List Nat)
    (hb : ∀ j, j < 30 + name.length →
      b.data (base + j) = (encodeLH flags csize usize name []).getD j 0)
    (hsz : base + 30 + name.length ≤ b.size)
    (hf : flags < 65536) (hc : csize < 4294967296) (hu : usize < 4294967296)
    (hn : name.length < 65536) (hbytes : ∀ x ∈ name, x < 256) :
    decodeLH b base = .ok ⟨67324752, flags, csize, usize, name⟩ := by
  have hsig : readLE b base 4 = 67324752 := by
    have h := readLE4_region b base 0 (30 + name.length) _ hb (by omega)
    simp only [Nat.add_zero] at h
    rw [h, show (encodeLH flags csize usize name []).getD 0 0 = 80 from rfl,
      show (encodeLH flags csize usize name []).getD 1 0 = 75 from rfl,
      show (encodeLH flags csize usize name []).getD 2 0 = 3 from rfl,
      show (encodeLH flags csize usize name []).getD 3 0 = 4 from rfl]
  have h6 : readLE b (base + 6) 2 = flags := by
    rw [readLE2_region b base 6 (30 + name.length) _ hb (by omega),
      show (encodeLH flags csize usize name []).getD 6 0 = flags % 256 from rfl,
      show (encodeLH flags csize usize name []).getD 7 0 = flags / 256 % 256
        from rfl]
    omega
  have h18 : readLE b (base + 18) 4 = csize := by
    rw [readLE4_region b base 18 (30 + name.length) _ hb (by omega),
      show (encodeLH flags csize usize name []).getD 18 0 = csize % 256
        from rfl,
      show (encodeLH flags csize usize name []).getD 19 0 = csize / 256 % 256
        from rfl,
      show (encodeLH flags csize usize name []).getD 20 0 = csize / 65536 % 256
        from rfl,
      show (encodeLH flags csize usize name []).getD 21 0 =
        csize / 16777216 % 256 from rfl]
    omega
  have h22 : readLE b (base + 22) 4 = usize := by
    rw [readLE4_region b base 22 (30 + name.length) _ hb (by omega),
      show (encodeLH flags csize usize name []).getD 22 0 = usize % 256
        from rfl,
      show (encodeLH flags csize usize name []).getD 23 0 = usize / 256 % 256
        from rfl,
      show (encodeLH flags csize usize name []).getD 24 0 = usize / 65536 % 256
        from rfl,
      show (encodeLH flags csize usize name []).getD 25 0 =
        usize / 16777216 % 256 from rfl]
    omega
  have h26 : readLE b (base + 26) 2 = name.length := by
    rw [readLE2_region b base 26 (30 + name.length) _ hb (by omega),
      show (encodeLH flags csize usize name []).getD 26 0 = name.length % 256
        from rfl,
      show (encodeLH flags csize usize name []).getD 27 0 =
        name.length / 256 % 256 from rfl]
    omega
  have h28 : readLE b (base + 28) 2 = 0 := by
    rw [readLE2_region b base 28 (30 + name.length) _ hb (by omega),
      show (encodeLH flags csize usize name []).getD 28 0 = 0 from rfl,
      show (encodeLH flags csize usize name []).getD 29 0 = 0 from rfl]
  have hnm : readBytes b (base + 30) name.length = name := by
    apply readBytes_exact _ _ _ _ hbytes
    intro j hj
    rw [show base + 30 + j = base + (30 + j) by omega, hb (30 + j) (by omega)]
    have hfix : (encodeLH flags csize usize name []).getD (30 + j) 0 =
        (name ++ []).getD j 0 := by
      have : (encodeLH flags csize usize name []) =
          [80, 75, 3, 4, 20, 0, flags % 256, flags / 256 % 256, 0, 0, 0, 0,
           0, 0, 0, 0, 0, 0, csize % 256, csize / 256 % 256,
           csize / 65536 % 256, csize / 16777216 % 256, usize % 256,
           usize / 256 % 256, usize / 65536 % 256, usize / 16777216 % 256,
           name.length % 256, name.length / 256 % 256, 0, 0] ++
            (name ++ []) := by
        simp [encodeLH]
      rw [this, List.getD_append_right _ _ _ _ (by simp)]
      simp
    rw [hfix, List.append_nil]
  unfold decodeLH
  rw [if_neg (by omega), if_neg (by rw [hsig]; omega)]
  rw [h26, h28, if_neg (by omega)]
  rw [hsig, h6, h18, h22, hnm]

theorem decodeCDH_of_region (b : ByteSource)
    (base flags csize usize lhOff disk : Nat) (name : List Nat)
    (hb : ∀ j, j < 46 + name.length →
      b.data (base + j) = (encodeCDH flags csize usize lhOff disk name []).getD j 0)
    (hsz : base + 46 + name.length ≤ b.size)
    (hf : flags < 65536) (hc : csize < 4294967295) (hu : usize < 4294967295)
    (hl : lhOff < 4294967295) (hd : disk < 65536)
    (hn : name.length < 65536) (hbytes : ∀ x ∈ name, x < 256) :
    decodeCDH b base =
      .ok (⟨33639248, flags, csize, usize, lhOff, disk, name⟩,
        46 + name.length) := by
  have hsig : readLE b base 4 = 33639248 := by
    have h := readLE4_region b base 0 (46 + name.length) _ hb (by omega)
    simp only [Nat.add_zero] at h
    rw [h,
      show (encodeCDH flags csize usize lhOff disk name []).getD 0 0 = 80
        from rfl,
      show (encodeCDH flags csize usize lhOff disk name []).getD 1 0 = 75
        from rfl,
      show (encodeCDH flags csize usize lhOff disk name []).getD 2 0 = 1
        from rfl,
      show (encodeCDH flags csize usize lhOff disk name []).getD 3 0 = 2
        from rfl]
  have h8 : readLE b (base + 8) 2 = flags := by
    rw [readLE2_region b base 8 (46 + name.length) _ hb (by omega),
      show (encodeCDH flags csize usize lhOff disk name []).getD 8 0 =
        flags % 256 from rfl,
      show (encodeCDH flags csize usize lhOff disk name []).getD 9 0 =
        flags / 256 % 256 from rfl]
    omega
  have h20 : readLE b (base + 20) 4 = csize := by
    rw [readLE4_region b base 20 (46 + name.length) _ hb (by omega),
      show (encodeCDH flags csize usize lhOff disk name []).getD 20 0 =
        csize % 256 from rfl,
      show (encodeCDH flags csize usize lhOff disk name []).getD 21 0 =
        csize / 256 % 256 from rfl,
      show (encodeCDH flags csize usize lhOff disk name []).getD 22 0 =
        csize / 65536 % 256 from rfl,
      show (encodeCDH flags csize usize lhOff disk name []).getD 23 0 =
        csize / 16777216 % 256 from rfl]
    omega
  have h24 : readLE b (base + 24) 4 = usize := by
    rw [readLE4_region b base 24 (46 + name.length) _ hb (by omega),
      show (encodeCDH flags csize usize lhOff disk name []).getD 24 0 =
        usize % 256 from rfl,
      show (encodeCDH flags csize usize lhOff disk name []).getD 25 0 =
        usize / 256 % 256 from rfl,
      show (encodeCDH flags csize usize lhOff disk name []).getD 26 0 =
        usize / 65536 % 256 from rfl,
      show (encodeCDH flags csize usize lhOff disk name []).getD 27 0 =
        usize / 16777216 % 256 from rfl]
    omega
  have h28 : readLE b (base + 28) 2 = name.length := by
    rw [readLE2_region b base 28 (46 + name.length) _ hb (by omega),
      show (encodeCDH flags csize usize lhOff disk name []).getD 28 0 =
        name.length % 256 from rfl,
      show (encodeCDH flags csize usize lhOff disk name []).getD 29 0 =
        name.length / 256 % 256 from rfl]
    omega
  have h30 : readLE b (base + 30) 2 = 0 := by
    rw [readLE2_region b base 30 (46 + name.length) _ hb (by omega),
      show (encodeCDH flags csize usize lhOff disk name []).getD 30 0 = 0
        from rfl,
      show (encodeCDH flags csize usize lhOff disk name []).getD 31 0 = 0
        from rfl]
  have h32 : readLE b (base + 32) 2 = 0 := by
    rw [readLE2_region b base 32 (46 + name.length) _ hb (by omega),
      show (encodeCDH flags csize usize lhOff disk name []).getD 32 0 = 0
        from rfl,
      show (encodeCDH flags csize usize lhOff disk name []).getD 33 0 = 0
        from rfl]
  have h34 : readLE b (base + 34) 2 = disk := by
    rw [readLE2_region b base 34 (46 + name.length) _ hb (by omega),
      show (encodeCDH flags csize usize lhOff disk name []).getD 34 0 =
        disk % 256 from rfl,
      show (encodeCDH flags csize usize lhOff disk name []).getD 35 0 =
        disk / 256 % 256 from rfl]
    omega
  have h42 : readLE b (base + 42) 4 = lhOff := by
    rw [readLE4_region b base 42 (46 + name.length) _ hb (by omega),
      show (encodeCDH flags csize usize lhOff disk name []).getD 42 0 =
        lhOff % 256 from rfl,
      show (encodeCDH flags csize usize lhOff disk name []).getD 43 0 =
        lhOff / 256 % 256 from rfl,
      show (encodeCDH flags csize usize lhOff disk name []).getD 44 0 =
        lhOff / 65536 % 256 from rfl,
      show (encodeCDH flags csize usize lhOff disk name []).getD 45 0 =
        lhOff / 16777216 % 256 from rfl]
    omega
  have hnm : readBytes b (base + 46) name.length = name := by
    apply readBytes_exact _ _ _ _ hbytes
    intro j hj
    rw [show base + 46 + j = base + (46 + j) by omega, hb (46 + j) (by omega)]
    have hfix : (encodeCDH flags csize usize lhOff disk name []).getD (46 + j) 0 =
        (name ++ []).getD j 0 := by
      have : (encodeCDH flags csize usize lhOff disk name []) =
          [80, 75, 1, 2, 20, 0, 20, 0, flags % 256, flags / 256 % 256, 0, 0,
           0, 0, 0, 0, 0, 0, 0, 0, csize % 256, csize / 256 % 256,
           csize / 65536 % 256, csize / 16777216 % 256, usize % 256,
           usize / 256 % 256, usize / 65536 % 256, usize / 16777216 % 256,
           name.length % 256, name.length / 256 % 256, 0, 0, 0, 0,
           disk % 256, disk / 256 % 256, 0, 0, 0, 0, 0, 0, lhOff % 256,
           lhOff / 256 % 256, lhOff / 65536 % 256, lhOff / 16777216 % 256] ++
            (name ++ []) := by
        simp [encodeCDH]
      rw [this, List.getD_append_right _ _ _ _ (by simp)]
      simp
    rw [hfix, List.append_nil]
  have hz : zip64Override usize csize lhOff disk
      (readBytes b (base + 46 + name.length) 0) = .ok (usize, csize, lhOff, disk) := by
    rw [zip64Override, if_pos (by omega)]
  unfold decodeCDH
  rw [if_neg (by omega), if_neg (by rw [hsig]; omega)]
  rw [h28, h30, h32, if_neg (by omega)]
  rw [h24, h20, h42, h34, hz, hsig, h8, hnm]
  simp

theorem scanFrom_length (b : ByteSource) :
    ∀ n off l e, scanFrom b n off = .ok (l, e) → l.length = n := by
  intro n
  induction n with
  | zero =>
    intro off l e h
    simp only [scanFrom] at h
    injection h with h'
    injection h' with h1 h2
    simp [← h1]
  | succ n ih =>
    intro off l e h
    simp only [scanFrom] at h
    split at h
    · exact absurd h (by simp)
    · split at h
      · exact absurd h (by simp)
      · rename_i l' e' h2
        injection h with h'
        injection h' with h3 h4
        rw [← h3]
        simp [ih _ l' e' h2]

theorem scanFrom_add_ok (b : ByteSource) :
    ∀ m n off l1 o1 l2 o2, scanFrom b m off = .ok (l1, o1) →
      scanFrom b n o1 = .ok (l2, o2) →
      scanFrom b (m + n) off = .ok (l1 ++ l2, o2) := by
  intro m
  induction m with
  | zero =>
    intro n off l1 o1 l2 o2 h1 h2
    simp only [scanFrom] at h1
    injection h1 with h'
    injection h' with ha hb
    rw [Nat.zero_add, ← ha]
    simpa [← hb] using h2
  | succ m ih =>
    intro n off l1 o1 l2 o2 h1 h2
    simp only [scanFrom] at h1
    split at h1
    · exact absurd h1 (by simp)
    · rename_i pair off' hs
      split at h1
      · exact absurd h1 (by simp)
      · rename_i l' e' hrest
        injection h1 with h'
        injection h' with ha hb
        rw [show m + 1 + n = (m + n) + 1 by omega]
        simp only [scanFrom]
        rw [hs]
        simp only []
        rw [ih n off' l' e' l2 o2 hrest (by rw [hb]; exact h2)]
        simp [← ha]

theorem resolveEntry_ok (b : ByteSource) (cdh : CDH) (p : CDH × LH)
    (h : resolveEntry b cdh = .ok p) :
    p.1 = cdh ∧ decodeLH b cdh.local_header_offset = .ok p.2 ∧
    p.2.file_name = cdh.file_name ∧
    (cdh.no_size_in_local_header = false →
      p.2.compressed_file_size = cdh.compressed_file_size ∧
      p.2.uncompressed_file_size = cdh.uncompressed_file_size) := by
  unfold resolveEntry at h
  split at h
  · exact absurd h (by simp)
  · rename_i lh hlh
    split at h
    · rename_i h1
      split at h
      · rename_i h2
        injection h with h'
        rw [← h']
        exact ⟨rfl, hlh, h1, by simp [h2]⟩
      · rename_i h2
        split at h
        · rename_i h3
          injection h with h'
          rw [← h']
          exact ⟨rfl, hlh, h1, fun _ => h3⟩
        · exact absurd h (by simp)
    · exact absurd h (by simp)

theorem decodeLH_sig (b : ByteSource) (off : Nat) (lh : LH)
    (h : decodeLH b off = .ok lh) : lh.signature = 67324752 := by
  unfold decodeLH at h
  split at h
  · exact absurd h (by simp)
  · split at h
    · exact absurd h (by simp)
    · split at h
      · exact absurd h (by simp)
      · injection h with h'
        rw [← h']
        simp only []
        omega

theorem decodeCDH_sig (b : ByteSource) (off : Nat) (cdh : CDH) (len : Nat)
    (h : decodeCDH b off = .ok (cdh, len)) : cdh.signature = 33639248 := by
  unfold decodeCDH at h
  split at h
  · exact absurd h (by simp)
  · split at h
    · exact absurd h (by simp)
    · split at h
      · exact absurd h (by simp)
      · split at h
        · exact absurd h (by simp)
        · injection h with h'
          injection h' with h1 h2
          rw [← h1]
          simp only []
          omega

theorem scanStep_ok (b : ByteSource) (off : Nat) (pair : CDH × LH) (off' : Nat)
    (h : scanStep b off = .ok (pair, off')) :
    ∃ len, decodeCDH b off = .ok (pair.1, len) ∧
      resolveEntry b pair.1 = .ok pair ∧ off' = off + len := by
  unfold scanStep at h
  split at h
  · exact absurd h (by simp)
  · rename_i cdh len hd
    split at h
    · exact absurd h (by simp)
    · rename_i pr2 hr
      injection h with h'
      injection h' with h1 h2
      have hfst : pr2.1 = cdh := (resolveEntry_ok b cdh pr2 hr).1
      refine ⟨len, ?_, ?_, h2.symm⟩
      · rw [← h1, hfst]; exact hd
      · rw [← h1, hfst]
        exact hr

theorem runSteps_closed (b : ByteSource) (m : Nat) :
    runSteps b m .closed = ([], .closed) := by
  cases m <;> simp [runSteps, InputJar.NextEntry]

theorem runSteps_failed (b : ByteSource) (m : Nat) :
    runSteps b m .failed = ([], .failed) := by
  cases m <;> simp [runSteps, InputJar.NextEntry]

theorem runSteps_done (b : ByteSource) (m co cnt cur : Nat) :
    runSteps b m (.opened co cnt cur 0) = ([], .opened co cnt cur 0) := by
  cases m <;> simp [runSteps, InputJar.NextEntry]

theorem runSteps_add (b : ByteSource) :
    ∀ n m j, runSteps b (n + m) j =
      ((runSteps b n j).1 ++ (runSteps b m (runSteps b n j).2).1,
       (runSteps b m (runSteps b n j).2).2) := by
  intro n
  induction n with
  | zero =>
    intro m j
    rw [Nat.zero_add]
    simp [runSteps]
  | succ n ih =>
    intro m j
    rw [show n + 1 + m = (n + m) + 1 by omega]
    cases j with
    | closed =>
      rw [runSteps_closed, runSteps_closed]
      simp [runSteps_closed]
    | failed =>
      rw [runSteps_failed, runSteps_failed]
      simp [runSteps_failed]
    | opened co cnt cur r =>
      cases r with
      | zero =>
        rw [runSteps_done, runSteps_done]
        simp [runSteps_done]
      | succ r =>
        cases hs : scanStep b cur with
        | error e =>
          have hred : ∀ k, runSteps b (k + 1) (.opened co cnt cur (r + 1)) =
              ([], .failed) := by
            intro k; simp [runSteps, InputJar.NextEntry, hs]
          rw [hred, hred]
          simp [runSteps_failed]
        | ok pr =>
          obtain ⟨pair, off'⟩ := pr
          have hred : ∀ k, runSteps b (k + 1) (.opened co cnt cur (r + 1)) =
              (pair :: (runSteps b k (.opened co cnt off' r)).1,
               (runSteps b k (.opened co cnt off' r)).2) := by
            intro k; simp [runSteps, InputJar.NextEntry, hs]
          rw [hred, hred, ih m (.opened co cnt off' r)]
          simp

theorem runSteps_mem (b : ByteSource) :
    ∀ n j l jf p, runSteps b n j = (l, jf) → p ∈ l →
      ∃ off len, decodeCDH b off = .ok (p.1, len) ∧
        resolveEntry b p.1 = .ok p := by
  intro n
  induction n with
  | zero =>
    intro j l jf p h hp
    simp only [runSteps] at h
    injection h with h1 h2
    rw [← h1] at hp
    exact absurd hp (by simp)
  | succ n ih =>
    intro j l jf p h hp
    cases j with
    | closed =>
      rw [runSteps_closed] at h
      injection h with h1 h2
      rw [← h1] at hp
      exact absurd hp (by simp)
    | failed =>
      rw [runSteps_failed] at h
      injection h with h1 h2
      rw [← h1] at hp
      exact absurd hp (by simp)
    | opened co cnt cur r =>
      cases r with
      | zero =>
        rw [runSteps_done] at h
        injection h with h1 h2
        rw [← h1] at hp
        exact absurd hp (by simp)
      | succ r =>
        cases hs : scanStep b cur with
        | error e =>
          have hred : runSteps b (n + 1) (.opened co cnt cur (r + 1)) =
              ([], .failed) := by
            simp [runSteps, InputJar.NextEntry, hs]
          rw [hred] at h
          injection h with h1 h2
          rw [← h1] at hp
          exact absurd hp (by simp)
        | ok pr =>
          obtain ⟨pair, off'⟩ := pr
          have hred : runSteps b (n + 1) (.opened co cnt cur (r + 1)) =
              (pair :: (runSteps b n (.opened co cnt off' r)).1,
               (runSteps b n (.opened co cnt off' r)).2) := by
            simp [runSteps, InputJar.NextEntry, hs]
          rw [hred] at h
          injection h with h1 h2
          rw [← h1] at hp
          cases hp with
          | head =>
            obtain ⟨len, hd, hr, _⟩ := scanStep_ok b cur p off' hs
            exact ⟨cur, len, hd, hr⟩
          | tail _ hmem =>
            exact ih (.opened co cnt off' r) _ _ p rfl hmem

theorem runSteps_complete (b : ByteSource) :
    ∀ n co cnt cur r l jf,
      runSteps b n (.opened co cnt cur r) = (l, jf) →
      isComplete jf = true → l.length = r := by
  intro n
  induction n with
  | zero =>
    intro co cnt cur r l jf h hc
    simp only [runSteps] at h
    injection h with h1 h2
    rw [← h2] at hc
    cases r with
    | zero => rw [← h1]; rfl
    | succ r => exact absurd hc (by simp [isComplete])
  | succ n ih =>
    intro co cnt cur r l jf h hc
    cases r with
    | zero =>
      rw [runSteps_done] at h
      injection h with h1 h2
      rw [← h1]
      rfl
    | succ r =>
      cases hs : scanStep b cur with
      | error e =>
        have hred : runSteps b (n + 1) (.opened co cnt cur (r + 1)) =
            ([], .failed) := by
          simp [runSteps, InputJar.NextEntry, hs]
        rw [hred] at h
        injection h with h1 h2
        rw [← h2] at hc
        exact absurd hc (by simp [isComplete])
      | ok pr =>
        obtain ⟨pair, off'⟩ := pr
        have hred : runSteps b (n + 1) (.opened co cnt cur (r + 1)) =
            (pair :: (runSteps b n (.opened co cnt off' r)).1,
             (runSteps b n (.opened co cnt off' r)).2) := by
          simp [runSteps, InputJar.NextEntry, hs]
        rw [hred] at h
        injection h with h1 h2
        have hlen := ih co cnt off' r _ _ rfl (by rw [h2]; exact hc)
        rw [← h1]
        simp [hlen]

theorem runSteps_scan (b : ByteSource) :
    ∀ r n co cnt cur l e, r ≤ n →
      scanFrom b r cur = .ok (l, e) →
      runSteps b n (.opened co cnt cur r) = (l, .opened co cnt e 0) := by
  intro r
  induction r with
  | zero =>
    intro n co cnt cur l e hle hscan
    simp only [scanFrom] at hscan
    injection hscan with h'
    injection h' with h1 h2
    rw [← h1, ← h2]
    exact runSteps_done b n co cnt cur
  | succ r ih =>
    intro n co cnt cur l e hle hscan
    cases n with
    | zero => omega
    | succ n =>
      simp only [scanFrom] at hscan
      split at hscan
      · exact absurd hscan (by simp)
      · rename_i pair off' hs
        split at hscan
        · exact absurd hscan (by simp)
        · rename_i l' e' h2
          injection hscan with h'
          injection h' with h3 h4
          have hred : runSteps b (n + 1) (.opened co cnt cur (r + 1)) =
              (pair :: (runSteps b n (.opened co cnt off' r)).1,
               (runSteps b n (.opened co cnt off' r)).2) := by
            simp [runSteps, InputJar.NextEntry, hs]
          rw [hred, ih n co cnt off' l' e' (by omega) h2, ← h3, ← h4]

theorem discover_count (b : ByteSource) (info : CDInfo)
    (h : discover b = .ok info) : declaredEntryCount b = some info.count := by
  unfold discover at h
  split at h
  · exact absurd h (by simp)
  · rename_i e hf
    by_cases hz : 20 ≤ e ∧ readLE b (e - 20) 4 = 117853008
    · rw [if_pos hz] at h
      split at h
      · exact absurd h (by simp)
      · split at h
        · exact absurd h (by simp)
        · injection h with h'
          simp [declaredEntryCount, hf, if_pos hz, ← h']
    · rw [if_neg hz] at h
      injection h with h'
      simp [declaredEntryCount, hf, if_neg hz, ← h']

theorem open_ok (b : ByteSource) (j : InputJar)
    (h : InputJar.Open .closed b = (j, true)) :
    ∃ info, discover b = .ok info ∧
      j = .opened info.cdOffset info.count info.cdOffset info.count := by
  simp only [InputJar.Open] at h
  split at h
  · exact absurd h (by simp)
  · rename_i info hd
    injection h with h1 h2
    exact ⟨info, hd, h1.symm⟩

theorem big_dirLH_region (i : Nat) (hi : i < 256) :
    ∀ k, k < 33 → bigB.data (33 * i + k) = (dirLHbytes i).getD k 0 := by
  intro k hk
  show bigData (33 * i + k) = _
  unfold bigData
  rw [if_pos (by omega)]
  rw [show (33 * i + k) / 33 = i by omega, show (33 * i + k) % 33 = k by omega]

theorem big_fileLH_region (j : Nat) (hj : j < 65536) :
    ∀ k, k < 34 →
      bigB.data (8448 + 34 * j + k) = (fileLHbytes j).getD k 0 := by
  intro k hk
  show bigData (8448 + 34 * j + k) = _
  unfold bigData
  rw [if_neg (by omega), if_pos (by omega)]
  rw [show 8448 + 34 * j + k - 8448 = 34 * j + k by omega]
  rw [show (34 * j + k) / 34 = j by omega, show (34 * j + k) % 34 = k by omega]

theorem big_dirCDH_region (i : Nat) (hi : i < 256) :
    ∀ k, k < 49 →
      bigB.data (2236672 + 49 * i + k) = (dirCDHbytes i).getD k 0 := by
  intro k hk
  show bigData (2236672 + 49 * i + k) = _
  unfold bigData
  rw [if_neg (by omega), if_neg (by omega), if_pos (by omega)]
  rw [show 2236672 + 49 * i + k - 2236672 = 49 * i + k by omega]
  rw [show (49 * i + k) / 49 = i by omega, show (49 * i + k) % 49 = k by omega]

theorem big_fileCDH_region (j : Nat) (hj : j < 65536) :
    ∀ k, k < 50 →
      bigB.data (2249216 + 50 * j + k) = (fileCDHbytes j).getD k 0 := by
  intro k hk
  show bigData (2249216 + 50 * j + k) = _
  unfold bigData
  rw [if_neg (by omega), if_neg (by omega), if_neg (by omega),
    if_pos (by omega)]
  rw [show 2249216 + 50 * j + k - 2249216 = 50 * j + k by omega]
  rw [show (50 * j + k) / 50 = j by omega, show (50 * j + k) % 50 = k by omega]

theorem big_dirLH_decode (i : Nat) (hi : i < 256) :
    decodeLH bigB (33 * i) = .ok (dirPair i).2 := by
  have h := decodeLH_of_region bigB (33 * i) 0 0 0 [100, i, 47]
    (fun j hj => big_dirLH_region i hi j (by simpa using hj))
    (by show 33 * i + 30 + _ ≤ 5526114; simp; omega)
    (by omega) (by omega) (by omega) (by simp)
    (by intro x hx; simp at hx; rcases hx with h | h | h <;> omega)
  simpa [dirPair] using h

theorem big_fileLH_decode (j : Nat) (hj : j < 65536) :
    decodeLH bigB (8448 + 34 * j) = .ok (filePair j).2 := by
  have h := decodeLH_of_region bigB (8448 + 34 * j) 0 0 0
    [102, j / 256, j % 256, 0]
    (fun k hk => big_fileLH_region j hj k (by simpa using hk))
    (by show 8448 + 34 * j + 30 + _ ≤ 5526114; simp; omega)
    (by omega) (by omega) (by omega) (by simp)
    (by intro x hx; simp at hx; rcases hx with h | h | h | h <;> omega)
  simpa [filePair] using h

theorem big_dirCDH_decode (i : Nat) (hi : i < 256) :
    decodeCDH bigB (2236672 + 49 * i) = .ok ((dirPair i).1, 49) := by
  have h := decodeCDH_of_region bigB (2236672 + 49 * i) 0 0 0 (33 * i) 0
    [100, i, 47]
    (fun j hj => big_dirCDH_region i hi j (by simpa using hj))
    (by show 2236672 + 49 * i + 46 + _ ≤ 5526114; simp; omega)
    (by omega) (by omega) (by omega) (by omega) (by omega) (by simp)
    (by intro x hx; simp at hx; rcases hx with h | h | h <;> omega)
  simpa [dirPair] using h

theorem big_fileCDH_decode (j : Nat) (hj : j < 65536) :
    decodeCDH bigB (2249216 + 50 * j) = .ok ((filePair j).1, 50) := by
  have h := decodeCDH_of_region bigB (2249216 + 50 * j) 0 0 0
    (8448 + 34 * j) 0 [102, j / 256, j % 256, 0]
    (fun k hk => big_fileCDH_region j hj k (by simpa using hk))
    (by show 2249216 + 50 * j + 46 + _ ≤ 5526114; simp; omega)
    (by omega) (by omega) (by omega) (by omega) (by omega) (by simp)
    (by intro x hx; simp at hx; rcases hx with h | h | h | h <;> omega)
  simpa [filePair] using h

theorem big_dirResolve (i : Nat) (hi : i < 256) :
    resolveEntry bigB (dirPair i).1 = .ok (dirPair i) := by
  have hlh := big_dirLH_decode i hi
  simp [resolveEntry, dirPair, CDH.no_size_in_local_header] at hlh ⊢
  simp [hlh]

theorem big_fileResolve (j : Nat) (hj : j < 65536) :
    resolveEntry bigB (filePair j).1 = .ok (filePair j) := by
  have hlh := big_fileLH_decode j hj
  simp [resolveEntry, filePair, CDH.no_size_in_local_header] at hlh ⊢
  simp [hlh]

theorem big_dirStep (i : Nat) (hi : i < 256) :
    scanStep bigB (2236672 + 49 * i) =
      .ok (dirPair i, 2236672 + 49 * i + 49) := by
  simp [scanStep, big_dirCDH_decode i hi, big_dirResolve i hi]

theorem big_fileStep (j : Nat) (hj : j < 65536) :
    scanStep bigB (2249216 + 50 * j) =
      .ok (filePair j, 2249216 + 50 * j + 50) := by
  simp [scanStep, big_fileCDH_decode j hj, big_fileResolve j hj]

theorem big_scanDir : ∀ n i, i + n ≤ 256 →
    scanFrom bigB n (2236672 + 49 * i) =
      .ok ((natsFrom i n).map dirPair, 2236672 + 49 * (i + n)) := by
  intro n
  induction n with
  | zero => intro i h; simp [scanFrom, natsFrom]
  | succ n ih =>
    intro i h
    simp only [scanFrom]
    rw [big_dirStep i (by omega)]
    simp only []
    rw [show 2236672 + 49 * i + 49 = 2236672 + 49 * (i + 1) by ring]
    rw [ih (i + 1) (by omega)]
    simp only [natsFrom, List.map_cons]
    rw [show i + 1 + n = i + (n + 1) by ring]

theorem big_scanFile : ∀ n j, j + n ≤ 65536 →
    scanFrom bigB n (2249216 + 50 * j) =
      .ok ((natsFrom j n).map filePair, 2249216 + 50 * (j + n)) := by
  intro n
  induction n with
  | zero => intro j h; simp [scanFrom, natsFrom]
  | succ n ih =>
    intro j h
    simp only [scanFrom]
    rw [big_fileStep j (by omega)]
    simp only []
    rw [show 2249216 + 50 * j + 50 = 2249216 + 50 * (j + 1) by ring]
    rw [ih (j + 1) (by omega)]
    simp only [natsFrom, List.map_cons]
    rw [show j + 1 + n = j + (n + 1) by ring]

theorem big_scan : scanFrom bigB 65792 2236672 = .ok (bigList, 5526016) := by
  have h1 : scanFrom bigB 256 2236672 =
      .ok ((natsFrom 0 256).map dirPair, 2249216) := by
    have h := big_scanDir 256 0 (by omega)
    norm_num at h
    exact h
  have h2 : scanFrom bigB 65536 2249216 =
      .ok ((natsFrom 0 65536).map filePair, 5526016) := by
    have h := big_scanFile 65536 0 (by omega)
    norm_num at h
    exact h
  have h := scanFrom_add_ok bigB 256 65536 2236672 _ _ _ _ h1 h2
  rw [show (65792 : Nat) = 256 + 65536 from rfl]
  exact h

/-- Number of yielded entries whose file name ends in the `/` byte, as the
reference test counts directories. -/
def dirCount (l : List (CDH × LH)) : Nat :=
  l.countP (fun p => lastByte p.1.file_name == 47)

/-- Number of yielded entries whose file name does not end in the `/` byte. -/
def fileCount (l : List (CDH × LH)) : Nat :=
  l.countP (fun p => lastByte p.1.file_name != 47)

theorem natsFrom_length : ∀ n i, (natsFrom i n).length = n := by
  intro n
  induction n with
  | zero => intro i; rfl
  | succ n ih => intro i; simp [natsFrom, ih]

theorem countP_map_true {α β : Type} (f : α → β) (p : β → Bool)
    (h : ∀ a, p (f a) = true) :
    ∀ l : List α, (l.map f).countP p = l.length := by
  intro l
  induction l with
  | nil => rfl
  | cons a t ih => simp [List.countP_cons, h, ih]

theorem countP_map_false {α β : Type} (f : α → β) (p : β → Bool)
    (h : ∀ a, p (f a) = false) :
    ∀ l : List α, (l.map f).countP p = 0 := by
  intro l
  induction l with
  | nil => rfl
  | cons a t ih => simp [List.countP_cons, h, ih]

theorem bigList_length : bigList.length = 65792 := by
  simp [bigList, natsFrom_length]

theorem bigList_dirCount : dirCount bigList = 256 := by
  unfold dirCount bigList
  rw [List.countP_append]
  rw [countP_map_true dirPair _ (fun i => rfl), natsFrom_length]
  rw [countP_map_false filePair _ (fun j => rfl)]

theorem bigList_fileCount : fileCount bigList = 65536 := by
  unfold fileCount bigList
  rw [List.countP_append]
  rw [countP_map_false dirPair _ (fun i => rfl)]
  rw [countP_map_true filePair _ (fun j => rfl), natsFrom_length]

/-- The pair the scanner yields for `res1` in the basic archive. -/
def res1Pair : CDH × LH :=
  (⟨33639248, 0, 123, 123, 0, 0, [114, 101, 115, 49]⟩,
   ⟨67324752, 0, 123, 123, [114, 101, 115, 49]⟩)

/-- The pair the scanner yields for `res2` in the basic archive. -/
def res2Pair : CDH × LH :=
  (⟨33639248, 0, 456, 456, 34, 0, [114, 101, 115, 50]⟩,
   ⟨67324752, 0, 456, 456, [114, 101, 115, 50]⟩)

/-- The pair the scanner yields for the `sub/` directory entry in the basic
archive. -/
def subPair : CDH × LH :=
  (⟨33639248, 0, 0, 0, 68, 0, [115, 117, 98, 47]⟩,
   ⟨67324752, 0, 0, 0, [115, 117, 98, 47]⟩)

/-- The full yielded sequence of the basic archive. -/
def basicPairs : List (CDH × LH) := [res1Pair, res2Pair, subPair]

/-- The pair the scanner yields for the 4 GiB + 1 entry of the huge archive. -/
def hugePair : CDH × LH :=
  (⟨33639248, 8, 4294967297, 4294967297, 0, 0, [104, 117, 103, 101]⟩,
   ⟨67324752, 8, 0, 0, [104, 117, 103, 101]⟩)

/-- The pair the scanner yields for the `res1` entry of the huge archive,
whose local header sits beyond 4 GiB. -/
def hugeRes1Pair : CDH × LH :=
  (⟨33639248, 0, 123, 123, 4294967298, 0, [114, 101, 115, 49]⟩,
   ⟨67324752, 0, 123, 123, [114, 101, 115, 49]⟩)

/-- The pair the scanner yields for the sentinel-sized entry. -/
def xffPair : CDH × LH :=
  (⟨33639248, 0, 4294967295, 4294967295, 0, 0, [120]⟩,
   ⟨67324752, 0, 4294967295, 4294967295, [120]⟩)

/-- The pair the scanner yields for the empty-named entry. -/
def emptyNamePair : CDH × LH :=
  (⟨33639248, 0, 0, 0, 0, 0, []⟩, ⟨67324752, 0, 0, 0, []⟩)

/-- Claim C1: for every well-formed archive, fully iterating the InputJar
facade (repeated NextEntry until the end-of-sequence signal) yields a number
of (CDH, LH) pairs equal to the archive's declared entry count — the classic
EOCD 16-bit count or, when the ZIP64 end record is present, its 64-bit
count. -/
theorem C1_full_iteration_count (b : ByteSource) (j : InputJar) (n : Nat)
    (l : List (CDH × LH)) (jf : InputJar)
    (hopen : InputJar.Open .closed b = (j, true))
    (hrun : runSteps b n j = (l, jf))
    (hdone : isComplete jf = true) :
    some l.length = declaredEntryCount b := by
  obtain ⟨info, hdisc, hj⟩ := open_ok b j hopen
  rw [hj] at hrun
  have hlen := runSteps_complete b n _ _ _ _ _ _ hrun hdone
  rw [hlen, discover_count b info hdisc]

/-- Witness for C1 at the basic three-entry archive. -/
theorem C1_witness :
    some (runSteps basicB 3 (.opened 102 3 102 3)).1.length =
      declaredEntryCount basicB :=
  C1_full_iteration_count basicB (.opened 102 3 102 3) 3 _ _ rfl rfl rfl

/-- Claim C2: the ZIP64 override returns, for each sentinel-valued nominal
field, the 64-bit value read from the ZIP64 sub-record, consuming 8 bytes
per sentinel field in the fixed order (uncompressed size, compressed size,
local-header offset, disk number) and no bytes for non-sentinel fields; a
sentinel without a ZIP64 sub-record is a MissingZip64Extension error. -/
theorem C2_zip64_override (u c o d : Nat) (extra sub : List Nat) :
    (((u = 4294967295 ∨ c = 4294967295 ∨ o = 4294967295 ∨ d = 4294967295) ∧
        findZip64 extra = none) →
      zip64Override u c o d extra = .error .MissingZip64Extension) ∧
    (findZip64 extra = some sub →
      8 * ((if u = 4294967295 then 1 else 0) +
        (if c = 4294967295 then 1 else 0) +
        (if o = 4294967295 then 1 else 0) +
        (if d = 4294967295 then 1 else 0)) ≤ sub.length →
      zip64Override u c o d extra = .ok
        ((if u = 4294967295 then subVal sub 0 else u),
         (if c = 4294967295 then
            subVal sub (8 * (if u = 4294967295 then 1 else 0)) else c),
         (if o = 4294967295 then
            subVal sub (8 * ((if u = 4294967295 then 1 else 0) +
              (if c = 4294967295 then 1 else 0))) else o),
         (if d = 4294967295 then
            subVal sub (8 * ((if u = 4294967295 then 1 else 0) +
              (if c = 4294967295 then 1 else 0) +
              (if o = 4294967295 then 1 else 0))) else d))) := by
  constructor
  · rintro ⟨hs, hf⟩
    unfold zip64Override
    rw [if_neg (by tauto), hf]
  · intro hf hlen
    unfold zip64Override
    rw [hf]
    by_cases hu : u = 4294967295 <;> by_cases hc : c = 4294967295 <;>
      by_cases ho : o = 4294967295 <;> by_cases hd : d = 4294967295
    all_goals simp only [hu, hc, ho, hd, ite_true, ite_false] at hlen
    all_goals try norm_num at hlen
    all_goals simp [pick, hu, hc, ho, hd, hlen]

/-- The extra field used in the C2 witness: a foreign sub-record (tag 9)
followed by the ZIP64 sub-record with 16 data bytes. -/
def extraW : List Nat :=
  [9, 0, 2, 0, 5, 5, 1, 0, 16, 0,
   1, 2, 3, 4, 5, 6, 7, 8, 9, 10, 11, 12, 13, 14, 15, 16]

/-- The ZIP64 sub-record data of `extraW`. -/
def subW : List Nat := [1, 2, 3, 4, 5, 6, 7, 8, 9, 10, 11, 12, 13, 14, 15, 16]

/-- Witness for C2: sentinel uncompressed size and local-header offset are
replaced by the first and second 8-byte values of the ZIP64 sub-record
(the non-sentinel compressed size and disk consume nothing), and a sentinel
without a ZIP64 sub-record is a MissingZip64Extension error. -/
theorem C2_witness :
    zip64Override 4294967295 7 4294967295 0 extraW =
      .ok (subVal subW 0, 7, subVal subW 8, 0) ∧
    zip64Override 4294967295 7 4294967295 0 [3, 0, 1, 0, 9] =
      .error .MissingZip64Extension := by
  constructor
  · have h := (C2_zip64_override 4294967295 7 4294967295 0 extraW subW).2
      (by rfl) (by norm_num [subW])
    simpa using h
  · exact (C2_zip64_override 4294967295 7 4294967295 0 [3, 0, 1, 0, 9] []).1
      ⟨Or.inl rfl, by rfl⟩

/-- Claim C3: for every (CDH, LH) pair yielded by NextEntry on a well-formed
archive, the CDH and LH file-name lengths are equal and the file-name bytes
are identical; and whenever the CDH's no_size_in_local_header flag is false,
the CDH and LH compressed sizes and uncompressed sizes are equal. -/
theorem C3_name_size_identity (b : ByteSource) (n : Nat) (j : InputJar)
    (l : List (CDH × LH)) (jf : InputJar) (p : CDH × LH)
    (hrun : runSteps b n j = (l, jf)) (hp : p ∈ l) :
    p.2.file_name_length = p.1.file_name_length ∧
    p.2.file_name = p.1.file_name ∧
    (p.1.no_size_in_local_header = false →
      p.2.compressed_file_size = p.1.compressed_file_size ∧
      p.2.uncompressed_file_size = p.1.uncompressed_file_size) := by
  obtain ⟨off, len, hd, hr⟩ := runSteps_mem b n j l jf p hrun hp
  obtain ⟨_, _, hname, hsize⟩ := resolveEntry_ok b p.1 p hr
  exact ⟨by simp [LH.file_name_length, CDH.file_name_length, hname],
    hname, hsize⟩

/-- Witness for C3 at the `res1` pair of the basic archive. -/
theorem C3_witness :
    res1Pair.2.file_name_length = res1Pair.1.file_name_length ∧
    res1Pair.2.file_name = res1Pair.1.file_name ∧
    (res1Pair.1.no_size_in_local_header = false →
      res1Pair.2.compressed_file_size = res1Pair.1.compressed_file_size ∧
      res1Pair.2.uncompressed_file_size = res1Pair.1.uncompressed_file_size) :=
  C3_name_size_identity basicB 3 (.opened 102 3 102 3) basicPairs
    (.opened 102 3 252 0) res1Pair rfl (by simp [basicPairs])

/-- Claim C4: on the huge archive, the entry of uncompressed size 0x100000001
(4 GiB + 1) is reported with exactly that size, with no 32-bit truncation;
and the entry whose ZIP64-corrected local-header offset 0x100000002 exceeds
0xFFFFFFFF resolves to the correct local header (same name) at that
offset. -/
theorem C4_huge_sizes_and_offsets :
    (openScan hugeB).toOption = some ([hugePair, hugeRes1Pair], 4294967464) ∧
    hugePair.1.uncompressed_file_size = 4294967297 ∧
    hugeRes1Pair.1.local_header_offset = 4294967298 ∧
    4294967295 < hugeRes1Pair.1.local_header_offset ∧
    decodeLH hugeB hugeRes1Pair.1.local_header_offset = .ok hugeRes1Pair.2 ∧
    hugeRes1Pair.2.file_name = hugeRes1Pair.1.file_name := by
  refine ⟨rfl, rfl, rfl, by norm_num [hugeRes1Pair], rfl, rfl⟩

/-- Claim C5: an archive with more than 65535 entries reports its true entry
count through the ZIP64 end record (never truncated to 65535); and in the
256-directories-by-256-files scenario the facade yields all 65792 entries:
at least 256*257 in total, at least 256 directory entries and at least
256*256 file entries. -/
theorem C5_lots_of_entries :
    (∀ b info l e, discover b = .ok info →
      scanFrom b info.count info.cdOffset = .ok (l, e) →
      65535 < l.length →
      info.zip64 = true ∧ some l.length = zip64EntryCount b) ∧
    (InputJar.Open .closed bigB =
        (.opened 2236672 65792 2236672 65792, true) ∧
      (runSteps bigB 65792 (.opened 2236672 65792 2236672 65792)).1 =
        bigList ∧
      256 * 257 ≤ bigList.length ∧
      256 ≤ dirCount bigList ∧ 256 * 256 ≤ fileCount bigList) := by
  constructor
  · intro b info l e hdisc hscan hlen
    have hcount : l.length = info.count := scanFrom_length b _ _ _ _ hscan
    unfold discover at hdisc
    split at hdisc
    · exact absurd hdisc (by simp)
    · rename_i eo hf
      by_cases hz : 20 ≤ eo ∧ readLE b (eo - 20) 4 = 117853008
      · rw [if_pos hz] at hdisc
        split at hdisc
        · exact absurd hdisc (by simp)
        · split at hdisc
          · exact absurd hdisc (by simp)
          · injection hdisc with h'
            constructor
            · rw [← h']
            · rw [hcount, ← h']
              simp [zip64EntryCount, hf]
      · rw [if_neg hz] at hdisc
        injection hdisc with h'
        exfalso
        have hb : readLE b (eo + 10) 2 < 65536 := by
          have h2 := readLE_lt b (eo + 10) 2
          norm_num at h2
          exact h2
        rw [hcount, ← h'] at hlen
        simp at hlen
        omega
  · refine ⟨rfl, ?_, ?_, ?_, ?_⟩
    · rw [runSteps_scan bigB 65792 65792 2236672 65792 2236672 bigList
        5526016 (le_refl _) big_scan]
    · rw [bigList_length]
    · rw [bigList_dirCount]
    · rw [bigList_fileCount]

/-- Witness for C5's universally quantified part at the lots-of-entries
archive: the declared count 65792 comes from the ZIP64 end record. -/
theorem C5_witness :
    (⟨65792, 2236672, 3289344, true⟩ : CDInfo).zip64 = true ∧
    some bigList.length = zip64EntryCount bigB :=
  C5_lots_of_entries.1 bigB ⟨65792, 2236672, 3289344, true⟩ bigList 5526016
    rfl big_scan (by rw [bigList_length]; norm_num)

/-- Claim C6: a failed Open leaves the facade in the Closed state (never
partially open); a failed NextEntry moves the facade to the unusable state,
which yields no further entries, and every pair returned before the failure
is preserved under further iteration. -/
theorem C6_facade_error_state :
    (∀ b j j' ok, j = .closed → InputJar.Open j b = (j', ok) → ok = false →
      j' = .closed) ∧
    (∀ b j j' e, InputJar.NextEntry j b = (j', .fail e) →
      j' = .failed ∧ ∀ m, runSteps b m j' = ([], j')) ∧
    (∀ b j n m l jf, runSteps b n j = (l, jf) → jf = .failed →
      (runSteps b (n + m) j).1 = l) := by
  refine ⟨?_, ?_, ?_⟩
  · intro b j j' ok hj hopen hok
    subst hj
    simp only [InputJar.Open] at hopen
    split at hopen
    · injection hopen with h1 h2
      exact h1.symm
    · injection hopen with h1 h2
      rw [hok] at h2
      exact absurd h2 (by simp)
  · intro b j j' e hne
    have hj' : j' = .failed := by
      unfold InputJar.NextEntry at hne
      split at hne
      · split at hne
        · injection hne with h1 h2
          exact h1.symm
        · injection hne with h1 h2
          exact absurd h2 (by simp)
      · injection hne with h1 h2
        exact absurd h2 (by simp)
    subst hj'
    exact ⟨rfl, fun m => runSteps_failed b m⟩
  · intro b j n m l jf hrun hjf
    rw [runSteps_add b n m j, hrun]
    simp only []
    rw [hjf, runSteps_failed]
    simp

/-- Witness for C6: a failing Open on the empty source stays Closed; a
failing NextEntry on the corrupt archive moves to the unusable state with no
further entries; iterating longer after the failure preserves the yielded
prefix. -/
theorem C6_witness :
    ((.closed : InputJar) = .closed) ∧
    ((.failed : InputJar) = .failed ∧
      ∀ m, runSteps corruptB m .failed = ([], .failed)) ∧
    (runSteps corruptB (1 + 2) (.opened 0 1 0 1)).1 = [] := by
  refine ⟨?_, ?_, ?_⟩
  · exact C6_facade_error_state.1 emptyB .closed .closed false rfl rfl rfl
  · exact C6_facade_error_state.2.1 corruptB (.opened 0 1 0 1) .failed
      .TruncatedRecord rfl
  · exact C6_facade_error_state.2.2 corruptB (.opened 0 1 0 1) 1 2 [] .failed
      rfl rfl

/-- Counterexample to C7 as stated: a single directory entry (name ending in
the `/` byte 47) whose CDH declares uncompressed size 6 while its LH stores
5, with the data-descriptor flag clear; the scanner reports
LocalHeaderMismatch instead of exempting the directory entry from the
CDH-versus-LH size-matching check. -/
theorem C7_counterexample :
    errOf (openScan dirMismatchB) = some .LocalHeaderMismatch ∧
    lastByte [100, 47] = 47 ∧
    readLE dirMismatchB (32 + 24) 4 = 6 ∧
    readLE dirMismatchB 22 4 = 5 ∧
    readLE dirMismatchB (32 + 8) 2 = 0 :=
  ⟨rfl, rfl, rfl, rfl, rfl⟩

/-- Claim C7, amended: a yielded entry whose file name ends in `/` is exempt
from the per-file expected-content-size checks but not from the
CDH-versus-LH size-matching check: it satisfies the name-identity and
record-signature invariants, and whenever no_size_in_local_header is false
its CDH and LH sizes are equal. -/
theorem C7_directory_entries (b : ByteSource) (n : Nat) (j : InputJar)
    (l : List (CDH × LH)) (jf : InputJar) (p : CDH × LH)
    (hrun : runSteps b n j = (l, jf)) (hp : p ∈ l)
    (hdir : lastByte p.1.file_name = 47) :
    p.2.file_name = p.1.file_name ∧ p.1.is = true ∧ p.2.is = true ∧
    (p.1.no_size_in_local_header = false →
      p.2.compressed_file_size = p.1.compressed_file_size ∧
      p.2.uncompressed_file_size = p.1.uncompressed_file_size) := by
  obtain ⟨off, len, hd, hr⟩ := runSteps_mem b n j l jf p hrun hp
  obtain ⟨_, hlh, hname, hsize⟩ := resolveEntry_ok b p.1 p hr
  have hsig1 := decodeCDH_sig b off p.1 len hd
  have hsig2 := decodeLH_sig b p.1.local_header_offset p.2 hlh
  exact ⟨hname, by simp [CDH.is, hsig1], by simp [LH.is, hsig2], hsize⟩

/-- Witness for the amended C7 at the `sub/` directory entry of the basic
archive. -/
theorem C7_witness :
    subPair.2.file_name = subPair.1.file_name ∧ subPair.1.is = true ∧
    subPair.2.is = true ∧
    (subPair.1.no_size_in_local_header = false →
      subPair.2.compressed_file_size = subPair.1.compressed_file_size ∧
      subPair.2.uncompressed_file_size = subPair.1.uncompressed_file_size) :=
  C7_directory_entries basicB 3 (.opened 102 3 102 3) basicPairs
    (.opened 102 3 252 0) subPair rfl (by simp [basicPairs]) rfl

/-- Claim C8: iteration over a fixed archive is deterministic and a fresh
open re-seeks from the central-directory start: re-opening the same archive
(after closing a partially consumed handle) yields the same sequence as the
first pass, and a complete facade pass equals the pure central-directory
scan. -/
theorem C8_iteration_deterministic :
    (∀ b j1 j2 k n, InputJar.Open .closed b = (j1, true) →
      InputJar.Open (InputJar.Close (runSteps b k j1).2) b = (j2, true) →
      runSteps b n j2 = runSteps b n j1) ∧
    (∀ b info l e n, discover b = .ok info →
      scanFrom b info.count info.cdOffset = .ok (l, e) → info.count ≤ n →
      (runSteps b n
        (.opened info.cdOffset info.count info.cdOffset info.count)).1 =
          l) := by
  constructor
  · intro b j1 j2 k n h1 h2
    rw [InputJar.Close] at h2
    have h12 : (j1, true) = ((j2, true) : InputJar × Bool) := by
      rw [← h1, ← h2]
    injection h12 with hj _
    rw [hj]
  · intro b info l e n hdisc hscan hle
    rw [runSteps_scan b info.count n info.cdOffset info.count info.cdOffset
      l e hle hscan]

/-- Witness for C8 at the basic archive: a second pass after closing a
partially consumed handle equals the first, and the full facade pass yields
exactly the pure scan's entries. -/
theorem C8_witness :
    runSteps basicB 5 (.opened 102 3 102 3) =
      runSteps basicB 5 (.opened 102 3 102 3) ∧
    (runSteps basicB 3 (.opened 102 3 102 3)).1 = basicPairs := by
  constructor
  · exact C8_iteration_deterministic.1 basicB (.opened 102 3 102 3)
      (.opened 102 3 102 3) 1 5 rfl rfl
  · exact C8_iteration_deterministic.2 basicB ⟨3, 102, 150, false⟩ basicPairs
      252 3 rfl rfl (by norm_num)

/-- Claim C9: an entry whose true compressed and uncompressed size is exactly
0xFFFFFFFF is reported with size 0xFFFFFFFF: the CDH's nominal field holds
the sentinel, the ZIP64 sub-record supplies 0xFFFFFFFF as the true 64-bit
value, and the scan succeeds — so a reported 0xFFFFFFFF is a legitimate
true size, not an unresolved sentinel. -/
theorem C9_sentinel_true_size :
    (openScan xffB).toOption = some ([xffPair], 98) ∧
    xffPair.1.uncompressed_file_size = 4294967295 ∧
    xffPair.1.compressed_file_size = 4294967295 ∧
    readLE xffB (31 + 24) 4 = 4294967295 ∧
    findZip64 (readBytes xffB (31 + 47) 20) =
      some [255, 255, 255, 255, 0, 0, 0, 0,
            255, 255, 255, 255, 0, 0, 0, 0] ∧
    subVal [255, 255, 255, 255, 0, 0, 0, 0,
            255, 255, 255, 255, 0, 0, 0, 0] 0 = 4294967295 :=
  ⟨rfl, rfl, rfl, rfl, rfl, rfl⟩

/-- Counterexample to C10 as stated: an archive whose single entry has an
empty file name is accepted by the scanner (signatures valid, names match,
sizes match, declared count met), yet the yielded local header's file-name
length is zero. -/
theorem C10_counterexample :
    (openScan emptyNameB).toOption = some ([emptyNamePair], 76) ∧
    emptyNamePair.2.file_name_length = 0 :=
  ⟨rfl, rfl⟩

/-- Claim C10, amended: every yielded (CDH, LH) pair carries the expected
record signatures (the magic-tag checks hold) and equal file-name lengths;
the LH file-name length is nonzero whenever the CDH file name is nonempty —
but a zero-length name is itself accepted, so nonemptiness is a property of
the archive producer, not one the scanner enforces. -/
theorem C10_yielded_signatures (b : ByteSource) (n : Nat) (j : InputJar)
    (l : List (CDH × LH)) (jf : InputJar) (p : CDH × LH)
    (hrun : runSteps b n j = (l, jf)) (hp : p ∈ l) :
    p.1.is = true ∧ p.2.is = true ∧
    p.2.file_name_length = p.1.file_name_length ∧
    (p.1.file_name ≠ [] → p.2.file_name_length ≠ 0) := by
  obtain ⟨off, len, hd, hr⟩ := runSteps_mem b n j l jf p hrun hp
  obtain ⟨_, hlh, hname, _⟩ := resolveEntry_ok b p.1 p hr
  have hsig1 := decodeCDH_sig b off p.1 len hd
  have hsig2 := decodeLH_sig b p.1.local_header_offset p.2 hlh
  refine ⟨by simp [CDH.is, hsig1], by simp [LH.is, hsig2],
    by simp [LH.file_name_length, CDH.file_name_length, hname], ?_⟩
  intro hne
  simp [LH.file_name_length, hname]
  intro hcon
  exact hne hcon

/-- Witness for the amended C10 at the `res1` pair of the basic archive. -/
theorem C10_witness :
    res1Pair.1.is = true ∧ res1Pair.2.is = true ∧
    res1Pair.2.file_name_length = res1Pair.1.file_name_length ∧
    (res1Pair.1.file_name ≠ [] → res1Pair.2.file_name_length ≠ 0) :=
  C10_yielded_signatures basicB 3 (.opened 102 3 102 3) basicPairs
    (.opened 102 3 252 0) res1Pair rfl (by simp [basicPairs])
